import Mathlib

/-!
Verification development for the `rflogs` CLI client
(`src/rflogs/__init__.py`).

The file embeds, as executable Lean definitions, the core of the
repository: the POSIX path helpers used by the path
resolver/sandboxer (`os.path.join`, `os.path.normpath`,
`os.path.abspath`, `os.path.commonprefix`, `os.path.basename`), the
embedded-markup scanner (`MsgHTMLParser` on top of CPython's
`html.parser` start-tag tokenization), the results-file walker
(`parse_output_xml`), the artifact enumerator (`find_robot_files`)
and the HTML-label rule of the upload orchestrator (`upload_files`).

The file system is modelled as the list of paths of existing regular
files, and the results document as a stream of XML start/end events
(the output of `xml.etree.ElementTree.iterparse`), entity-decoded
text included, or as a `malformed` marker when the document cannot be
opened or is not well-formed XML.
-/

namespace RFLogs

/-- Python whitespace characters recognised by the tokenizer
(`\x20`, `\t`, `\n`, `\r`, `\x0c`). -/
def pySpace (c : Char) : Bool :=
  c = ' ' ∨ c = '\t' ∨ c = '\n' ∨ c = '\r' ∨ c = '\x0c'

/-- Python's `str.upper()` (ASCII model). -/
def pyUpper (s : String) : String := ⟨s.data.map Char.toUpper⟩

/-- Python's `str.lower()` (ASCII model); also the lowercasing CPython's
`HTMLParser` applies to tag and attribute names. -/
def pyLower (s : String) : String := ⟨s.data.map Char.toLower⟩

/-- `s.startswith(pre)` on the character lists. -/
def strStartsWith (s pre : String) : Bool := pre.data.isPrefixOf s.data

/-- `s.endswith(suf)` on the character lists. -/
def strEndsWith (s suf : String) : Bool := suf.data.isSuffixOf s.data

/-- `str.split(sep)` for a one-character separator, on character lists:
the loop carries the current (reversed) chunk. -/
def splitOnCharAux (sep : Char) : List Char → List Char → List (List Char)
  | [], acc => [acc.reverse]
  | c :: cs, acc =>
    if c = sep then acc.reverse :: splitOnCharAux sep cs []
    else splitOnCharAux sep cs (c :: acc)

/-- `str.split(sep)` for a one-character separator. -/
def splitOnChar (sep : Char) (s : String) : List String :=
  (splitOnCharAux sep s.data []).map String.mk

/-- `int(s)` on a nonempty all-digit string, else `None`. -/
def digitsToNat? (l : List Char) : Option Nat :=
  if l ≠ [] ∧ l.all Char.isDigit then
    some (l.foldl (fun n c => n * 10 + (c.toNat - 48)) 0)
  else none

/-- `int(s)` on a string. -/
def strToNat? (s : String) : Option Nat := digitsToNat? s.data

/-- `elem.get(key)` / dictionary lookup on an attribute list: the value
of the first pair whose name equals `k`. -/
def lookupAttr (k : String) : List (String × String) → Option String
  | [] => none
  | (n, v) :: rest => if n = k then some v else lookupAttr k rest

/-- Character-wise longest common prefix of two character lists; the core of
`os.path.commonprefix` at its two-element call site in `parse_output_xml`. -/
def lcp : List Char → List Char → List Char
  | a :: as, b :: bs => if a = b then a :: lcp as bs else []
  | _, _ => []

/-- `os.path.commonprefix([a, b])`: the longest common prefix of the two
strings, character by character. -/
def commonPrefixOf (a b : String) : String := ⟨lcp a.data b.data⟩

/-- `os.path.join(a, b)` for POSIX paths, as in `posixpath.join`:
an absolute second component replaces the first. -/
def os_path_join (a b : String) : String :=
  if strStartsWith b "/" then b
  else if a = "" ∨ strEndsWith a "/" then a ++ b
  else a ++ "/" ++ b

/-- The component-collapsing loop of `posixpath.normpath`: `''` and `'.'`
components are dropped, `'..'` pops the previous component except at the
root or after an unresolved leading `'..'`. `slashes` is the number of
initial slashes kept (0, 1, or 2). -/
def normComps (slashes : Nat) (comps : List String) : List String :=
  comps.foldl (fun acc comp =>
    if comp = "" ∨ comp = "." then acc
    else if comp ≠ ".." ∨ (slashes = 0 ∧ acc = []) ∨ acc.getLast? = some ".." then
      acc ++ [comp]
    else acc.dropLast) []

/-- `os.path.normpath(p)` for POSIX paths (`posixpath.normpath`): collapse
`.`/`..` segments and repeated separators, preserving one or two leading
slashes as POSIX allows. -/
def os_normpath (p : String) : String :=
  if p = "" then "."
  else
    let slashes : Nat :=
      if strStartsWith p "//" ∧ ¬ strStartsWith p "///" then 2
      else if strStartsWith p "/" then 1 else 0
    let comps := normComps slashes (splitOnChar '/' p)
    let path := String.join (List.replicate slashes "/") ++ String.intercalate "/" comps
    if path = "" then "." else path

/-- `os.path.abspath(p)`: join against the current working directory and
normalize (`posixpath.abspath`); `cwd` is the process working directory,
assumed absolute. -/
def os_abspath (cwd p : String) : String := os_normpath (os_path_join cwd p)

/-- `os.path.basename(p)` for POSIX paths: everything after the final
slash (the whole string when no slash occurs). -/
def os_basename (p : String) : String :=
  ⟨p.data.foldl (fun acc c => if c = '/' then [] else acc ++ [c]) []⟩

/-- Python's `s[:-n]` slice on a string of characters: drop the final `n`
characters (the empty string when the string is no longer than `n`). -/
def pySliceDropLast (n : Nat) (s : String) : String :=
  ⟨s.data.take (s.data.length - n)⟩

/-- Python's `str.capitalize()` on the character list: first character
uppercased, every remaining character lowercased (ASCII model). -/
def pyCapitalizeData : List Char → List Char
  | [] => []
  | c :: cs => c.toUpper :: cs.map Char.toLower

/-- Python's `str.capitalize()`. -/
def pyCapitalize (s : String) : String := ⟨pyCapitalizeData s.data⟩

/-- Insertion into the model of a Python `set` of strings: append the
element unless it is already present. -/
def setInsert (l : List String) (x : String) : List String :=
  if x ∈ l then l else l ++ [x]

/-! ## Embedded-markup scanner

`MsgHTMLParser` (src/rflogs/__init__.py:237-245) subclasses CPython's
`html.parser.HTMLParser` and records the value of every `src`/`href`
attribute seen on a start tag.  The tokenization below models CPython's
start-tag scanning: start tags are recognised by `<` followed by an ASCII
letter, attribute values may be double-quoted, single-quoted or unquoted,
malformed or partial markup never raises (an unterminated tag is simply
never reported), end tags, comments, declarations and processing
instructions yield no events, and the parser reports tag and attribute
names lowercased.  A valueless attribute is modelled as having the empty
string as its value. -/

/-- The single-quote character (used instead of a quoted literal). -/
def squote : Char := Char.ofNat 39

/-- A raw tokenized start tag: tag name and attribute (name, value) pairs
as written, before the parser lowercases names. -/
abbrev RawTag := String × List (String × String)

/-- Characters allowed in a tag name after the initial letter
(everything except whitespace, `/`, `>`). -/
def tagNameChar (ch : Char) : Bool := ¬ pySpace ch ∧ ch ≠ '/' ∧ ch ≠ '>'

/-- Characters allowed in an attribute name after the first
(everything except whitespace, `/`, `>`, `=`). -/
def attrNameChar (ch : Char) : Bool :=
  ¬ pySpace ch ∧ ch ≠ '/' ∧ ch ≠ '>' ∧ ch ≠ '='

/-- Characters of an unquoted attribute value
(everything except whitespace and `>`). -/
def unquotedChar (ch : Char) : Bool := ¬ pySpace ch ∧ ch ≠ '>'

/-- Read a quoted attribute value delimited by `q`; `none` when the
closing quote is missing (the tag is then never completed). -/
def parseQuoted (q : Char) (r : List Char) : Option (String × List Char) :=
  if q ∈ r then
    some (⟨r.takeWhile (fun ch => ch ≠ q)⟩, (r.dropWhile (fun ch => ch ≠ q)).drop 1)
  else none

/-- Attribute scanning loop inside a start tag, fuel-indexed (the fuel
bounds the number of iterations; each iteration consumes input).
Returns the attributes and the input after the closing `>`, or `none`
when the tag is unterminated. -/
def parseAttrsAux : Nat → List Char → List (String × String) →
    Option (List (String × String) × List Char)
  | 0, _, _ => none
  | _ + 1, [], _ => none
  | fuel + 1, c :: rest, acc =>
    if c = '>' then some (acc.reverse, rest)
    else if pySpace c ∨ c = '/' then parseAttrsAux fuel rest acc
    else
      let name : String := ⟨c :: rest.takeWhile attrNameChar⟩
      let rest1 := rest.dropWhile attrNameChar
      let rest2 := rest1.dropWhile pySpace
      match rest2 with
      | '=' :: rest3 =>
        let rest4 := rest3.dropWhile pySpace
        match rest4 with
        | q :: r5 =>
          if q = '"' ∨ q = squote then
            match parseQuoted q r5 with
            | some (value, r6) => parseAttrsAux fuel r6 ((name, value) :: acc)
            | none => none
          else
            parseAttrsAux fuel (rest4.dropWhile unquotedChar)
              ((name, ⟨rest4.takeWhile unquotedChar⟩) :: acc)
        | [] => parseAttrsAux fuel [] ((name, "") :: acc)
      | _ => parseAttrsAux fuel rest1 ((name, "") :: acc)

/-- Main tokenizer loop, fuel-indexed: yields the start tags of the
fragment in document order, with raw names. -/
def startTagsAux : Nat → List Char → List RawTag
  | 0, _ => []
  | _ + 1, [] => []
  | fuel + 1, c :: rest =>
    if c = '<' then
      match rest with
      | [] => []
      | d :: rest2 =>
        if d.isAlpha then
          let tagName : String := ⟨d :: rest2.takeWhile tagNameChar⟩
          let afterName := rest2.dropWhile tagNameChar
          match parseAttrsAux (afterName.length + 1) afterName [] with
          | some (attrs, rest3) => (tagName, attrs) :: startTagsAux fuel rest3
          | none => []
        else if d = '/' ∨ d = '!' ∨ d = '?' then
          startTagsAux fuel ((rest2.dropWhile (fun ch => ch ≠ '>')).drop 1)
        else startTagsAux fuel rest
    else startTagsAux fuel rest

/-- The start tags of an HTML fragment, in document order, raw names. -/
def startTags (s : String) : List RawTag :=
  startTagsAux (s.data.length + 1) s.data

/-- The lowercasing CPython's `HTMLParser` applies to the tag and
attribute names before invoking `handle_starttag`. -/
def lowerTag (t : RawTag) : RawTag :=
  (pyLower t.1, t.2.map (fun a => (pyLower a.1, a.2)))

/-- The `(tag, attrs)` arguments `handle_starttag` receives, in call
order, for one fed fragment. -/
def htmlParserStartTags (s : String) : List RawTag :=
  (startTags s).map lowerTag

/-- `MsgHTMLParser.handle_starttag`: the values appended to
`self.file_paths` for one start tag (`attr_name in ["src", "href"]`). -/
def starttagPaths (attrs : List (String × String)) : List String :=
  attrs.filterMap (fun a => if a.1 = "src" ∨ a.1 = "href" then some a.2 else none)

/-- The `file_paths` list of a fresh `MsgHTMLParser` after feeding it the
fragment `s`: the embedded-markup scanner of the spec. -/
def msgFilePaths (s : String) : List String :=
  ((htmlParserStartTags s).map (fun t => starttagPaths t.2)).flatten

/-! ## Results-file walker

`parse_output_xml` (src/rflogs/__init__.py:248-268) streams the results
document with `xml.etree.ElementTree.iterparse` and collects the admitted
artifact paths of every `msg` element with `html="true"`.  The statistics
and timing accumulation specified in §4.3 of the spec (and exercised by
`src/tests/test_xml_parsing.py`, which unpacks a `(files, stats)` pair) is
absent from the `src/` snapshot of the module; it is modelled from the
spec below.  The document is a stream of start/end element events with
attributes and entity-decoded text. -/

/-- One streaming-parser event of the results document. -/
inductive XmlEvent where
  | startTag (tag : String)
  | endTag (tag : String) (attrs : List (String × String)) (text : String)
deriving DecidableEq, Repr

/-- A results-document source: either unreadable/not-well-formed XML, or
the event stream of a well-formed document. -/
inductive DocInput where
  | malformed
  | wellFormed (events : List XmlEvent)
deriving DecidableEq, Repr

/-- The error taxonomy of spec §7: `malformed` is `DocumentError` (the
document cannot be opened or is not well-formed XML), `badAttr` is
`AttributeTypeError` (a numeric attribute present but non-numeric). -/
inductive DocError where
  | malformed
  | badAttr
deriving DecidableEq, Repr

/-- The statistics record produced by one parse invocation (spec §3);
timestamps are microseconds since the Unix epoch, UTC. -/
structure RunStatistics where
  total_tests : Nat
  passed : Nat
  failed : Nat
  skipped : Nat
  verdict : String
  start_time : Option Int
  end_time : Option Int
deriving DecidableEq, Repr

/-- The all-defaults statistics record: zero counts, verdict `pass`,
timestamps unset. -/
def defaultStats : RunStatistics :=
  ⟨0, 0, 0, 0, "pass", none, none⟩

/-- State threaded through the traversal: the `statistics`/`total`
subtree flags, the accumulated counts, the running start-time and
elapsed-time candidates (attribute strings), and the artifact set. -/
structure WalkSt where
  in_statistics : Bool
  in_total : Bool
  total_tests : Nat
  passed : Nat
  failed : Nat
  skipped : Nat
  startCand : Option String
  elapsedCand : String
  artifacts : List String
deriving DecidableEq, Repr

/-- The fresh walker state. -/
def initSt : WalkSt := ⟨false, false, 0, 0, 0, 0, none, "0", []⟩

/-- Modelled from the spec: an integer statistics attribute — absent
attributes default to 0, present but non-numeric values are fatal
(spec §4.3, §7). -/
def parseCount : Option String → Except DocError Nat
  | none => .ok 0
  | some s =>
    match strToNat? s with
    | some n => .ok n
    | none => .error .badAttr

/-- Pad or truncate a fraction-digit list to exactly six digits
(microsecond precision). -/
def padFrac (l : List Char) : List Char :=
  (l ++ List.replicate 6 '0').take 6

/-- Modelled from the spec: the `elapsed` attribute, nonnegative
floating-point seconds, read to microsecond precision. -/
def parseElapsedMicros (s : String) : Option Nat :=
  match splitOnChar '.' s with
  | [a] => (strToNat? a).map (· * 1000000)
  | [a, b] => do
    let n ← strToNat? a
    let f ← digitsToNat? (padFrac b.data)
    pure (n * 1000000 + f)
  | _ => none

/-- Days between a civil date and 1970-01-01 (proleptic Gregorian). -/
def daysFromCivil (y m d : Int) : Int :=
  let y := if m ≤ 2 then y - 1 else y
  let era := (if 0 ≤ y then y else y - 399) / 400
  let yoe := y - era * 400
  let mp := (m + 9) % 12
  let doy := (153 * mp + 2) / 5 + d - 1
  let doe := yoe * 365 + yoe / 4 - yoe / 100 + doy
  era * 146097 + doe - 719468

/-- Modelled from the spec: ISO-8601 timestamp parsing
(`YYYY-MM-DDTHH:MM:SS[.ffffff]`, optional trailing `Z` denoting UTC),
to microseconds since the Unix epoch. -/
def parseIsoMicros (s : String) : Option Int :=
  let s := if strEndsWith s "Z" then pySliceDropLast 1 s else s
  match splitOnChar 'T' s with
  | [ds, ts] =>
    match splitOnChar '-' ds, splitOnChar ':' ts with
    | [ys, ms, dds], [hs, mins, secs] => do
      let y ← strToNat? ys
      let mo ← strToNat? ms
      let da ← strToNat? dds
      let h ← strToNat? hs
      let mi ← strToNat? mins
      let (sstr, fstr) :=
        match splitOnChar '.' secs with
        | [a, b] => (a, b)
        | _ => (secs, "")
      let se ← strToNat? sstr
      let frac ← digitsToNat? (padFrac fstr.data)
      if 1 ≤ mo ∧ mo ≤ 12 ∧ 1 ≤ da ∧ da ≤ 31 ∧ h ≤ 23 ∧ mi ≤ 59 ∧ se ≤ 59 then
        pure ((((daysFromCivil y mo da * 24 + h) * 60 + mi) * 60 + se) * 1000000 + frac)
      else none
    | _, _ => none
  | _ => none

/-- The path resolver/sandboxer applied to one candidate reference
(src/rflogs/__init__.py:260-265): join to the base directory, normalize,
canonicalize, then admit into the artifact set only when the canonical
base directory path is a literal string prefix of the result and the
result is an existing regular file. -/
def admitRef (fs : List String) (cwd base : String) (arts : List String)
    (file_path : String) : List String :=
  let resolved1 := os_path_join base file_path
  let resolved2 := os_normpath resolved1
  let resolved3 := os_abspath cwd resolved2
  if commonPrefixOf resolved3 base = base then
    if resolved3 ∈ fs then setInsert arts resolved3 else arts
  else arts

/-- The canonical path a candidate reference resolves to. -/
def resolveRef (cwd base file_path : String) : String :=
  os_abspath cwd (os_normpath (os_path_join base file_path))

/-- Handling of one `msg` element with `html="true"`: scan its text and
run every yielded reference through the resolver/sandboxer. -/
def processMsg (fs : List String) (cwd base : String) (arts : List String)
    (text : String) : List String :=
  (msgFilePaths text).foldl (admitRef fs cwd base) arts

/-- One step of the walker (spec §4.3 element-handling rules together
with the `msg` handling of src/rflogs/__init__.py:255-265):
`statistics`/`total` flags flip on entering/leaving, a `stat` element
inside `statistics/total` with text `"All Tests"` sets the counts, a
`status` element with a `start` attribute overwrites the timing
candidates, and an HTML `msg` element grows the artifact set. -/
def step (fs : List String) (cwd base : String) (st : WalkSt) (e : XmlEvent) :
    Except DocError WalkSt :=
  match e with
  | .startTag t =>
    if t = "statistics" then .ok { st with in_statistics := true }
    else if t = "total" ∧ st.in_statistics then .ok { st with in_total := true }
    else .ok st
  | .endTag t attrs text =>
    if t = "statistics" then .ok { st with in_statistics := false }
    else if t = "total" then .ok { st with in_total := false }
    else if t = "stat" ∧ st.in_statistics ∧ st.in_total ∧ text = "All Tests" then
      match parseCount (lookupAttr "pass" attrs), parseCount (lookupAttr "fail" attrs),
          parseCount (lookupAttr "skip" attrs) with
      | .ok p, .ok f, .ok k =>
        .ok { st with passed := p, failed := f, skipped := k, total_tests := p + f + k }
      | _, _, _ => .error .badAttr
    else if t = "status" then
      match lookupAttr "start" attrs with
      | some s =>
        .ok { st with startCand := some s, elapsedCand := (lookupAttr "elapsed" attrs).getD "0" }
      | none => .ok st
    else if t = "msg" ∧ lookupAttr "html" attrs = some "true" then
      .ok { st with artifacts := processMsg fs cwd base st.artifacts text }
    else .ok st

/-- The walker's traversal of the event stream (a fatal error aborts the
whole walk). -/
def walkEvents (fs : List String) (cwd base : String) :
    List XmlEvent → WalkSt → Except DocError WalkSt
  | [], st => .ok st
  | e :: evs, st =>
    match step fs cwd base st e with
    | .error er => .error er
    | .ok st1 => walkEvents fs cwd base evs st1

/-- Post-traversal finalization (spec §4.3): verdict from the failure
count; when a start-time candidate was recorded, parse it and add the
elapsed-time candidate to obtain the end time. -/
def finalize (st : WalkSt) : Except DocError RunStatistics :=
  match st.startCand with
  | none =>
    .ok ⟨st.total_tests, st.passed, st.failed, st.skipped,
         if st.failed > 0 then "fail" else "pass", none, none⟩
  | some s =>
    match parseIsoMicros s, parseElapsedMicros st.elapsedCand with
    | some t, some d =>
      .ok ⟨st.total_tests, st.passed, st.failed, st.skipped,
           if st.failed > 0 then "fail" else "pass", some t, some (t + (d : Int))⟩
    | _, _ => .error .badAttr

/-- `parse_output_xml(output_xml_path, base_directory)`
(src/rflogs/__init__.py:248-268, statistics modelled from spec §4.3):
abspath the base directory, walk the document events, finalize.  An
unreadable or not-well-formed document is a fatal error with no partial
result. -/
def parse_output_xml (fs : List String) (cwd : String) (input : DocInput)
    (base_directory : String) : Except DocError (List String × RunStatistics) :=
  match input with
  | .malformed => .error .malformed
  | .wellFormed evs =>
    match walkEvents fs cwd (os_abspath cwd base_directory) evs initSt with
    | .error er => .error er
    | .ok st =>
      match finalize st with
      | .error er => .error er
      | .ok stats => .ok (st.artifacts, stats)

/-! ## Artifact enumerator -/

/-- The `robot_files` entries contributed by the `output` branch of
`find_robot_files` (src/rflogs/__init__.py:217-222): the output path
followed by the artifacts discovered by `parse_output_xml`, or nothing
when the configured name is the disable sentinel (case-insensitively) or
the file does not exist. -/
def outputPart (fs : List String) (cwd : String) (doc : DocInput)
    (directory output : String) : Except DocError (List String) :=
  if pyUpper output ≠ "NONE" then
    if os_path_join directory output ∈ fs then
      match parse_output_xml fs cwd doc directory with
      | .error er => .error er
      | .ok (additional_files, _stats) =>
        .ok (os_path_join directory output :: additional_files)
    else .ok []
  else .ok []

/-- The `robot_files` entry contributed by the `log` (resp. `report`)
branch of `find_robot_files` (src/rflogs/__init__.py:224-232): the
joined path when the configured name is not the disable sentinel
(case-insensitively) and the file exists, else nothing. -/
def wellKnownPart (fs : List String) (directory name : String) : List String :=
  if pyUpper name ≠ "NONE" ∧ os_path_join directory name ∈ fs then
    [os_path_join directory name]
  else []

/-- `find_robot_files(directory, output, log, report)`
(src/rflogs/__init__.py:214-234): `robot_files` accumulates, in order,
the primary results file and its discovered artifacts, then the primary
log file, then the primary report file.  `fs` is the set of existing
files and `doc` the content of the results document. -/
def find_robot_files (fs : List String) (cwd : String) (doc : DocInput)
    (directory output log report : String) : Except DocError (List String) :=
  match outputPart fs cwd doc directory output with
  | .error er => .error er
  | .ok part1 =>
    .ok (part1 ++ wellKnownPart fs directory log ++ wellKnownPart fs directory report)

/-- The human label `upload_files` derives for an uploaded file whose
name ends (case-insensitively) in `.html`
(src/rflogs/__init__.py:157): `os.path.basename(file_name).capitalize()[:-5]`. -/
def htmlLabel (file_name : String) : String :=
  pySliceDropLast 5 (pyCapitalize (os_basename file_name))

/-! ## Measurement functions over the event stream

These read off, directly from the document events, the data the claims
quantify over: the candidate references yielded by the scanner, the last
status element carrying a `start` attribute, and the presence of
matching elements. -/

/-- The candidate references the scanner yields for one event: the
`file_paths` of the text of a `msg` element with `html="true"`. -/
def candOf : XmlEvent → List String
  | .endTag t attrs text =>
    if t = "msg" ∧ lookupAttr "html" attrs = some "true" then msgFilePaths text else []
  | _ => []

/-- All candidate references of a document, in document order. -/
def candidates (evs : List XmlEvent) : List String :=
  (evs.map candOf).flatten

/-- The timing candidate one event contributes: the `start` attribute and
the `elapsed` attribute (default `"0"`) of a closing `status` element
that carries `start`. -/
def statusOf : XmlEvent → Option (String × String)
  | .endTag t attrs _ =>
    if t = "status" then
      match lookupAttr "start" attrs with
      | some s => some (s, (lookupAttr "elapsed" attrs).getD "0")
      | none => none
    else none
  | _ => none

/-- The `start`/`elapsed` attribute pair of the last `status` element in
document order that carries a `start` attribute: a left fold in which a
later contribution overwrites an earlier one. -/
def lastStatusStart (evs : List XmlEvent) : Option (String × String) :=
  evs.foldl (fun acc e =>
    match statusOf e with
    | some se => some se
    | none => acc) none

/-- Whether an event is a closing `stat` element with text `"All Tests"`
(a totals record, wherever it occurs). -/
def isAllTestsStat : XmlEvent → Bool
  | .endTag t _ text => t = "stat" ∧ text = "All Tests"
  | _ => false

/-- Accumulation of the running timing candidates over one event. -/
def statusFold (p : Option String × String) (e : XmlEvent) : Option String × String :=
  match statusOf e with
  | some se => (some se.1, se.2)
  | none => p

/-- Modelled from the spec: the scanner as the spec words it in §4.1,
with "matching … exact on `src`/`href`" — an attribute contributes its
value only when its name, as written in the fragment, is exactly `src`
or `href`. -/
def exactMatchScan (s : String) : List String :=
  ((startTags s).map (fun t =>
    t.2.filterMap (fun a =>
      if a.1 = "src" ∨ a.1 = "href" then some a.2 else none))).flatten

/-- Modelled from the spec: the label rule as the spec words it in §6 —
the basename with its final five characters removed and its first letter
capitalized, the remaining characters preserved exactly. -/
def specClaimLabel (file_name : String) : String :=
  match (pySliceDropLast 5 (os_basename file_name)).data with
  | [] => ""
  | c :: cs => ⟨c.toUpper :: cs⟩

/-! ## Elementary lemmas -/

theorem mem_setInsert {l : List String} {x p : String} :
    p ∈ setInsert l x ↔ p ∈ l ∨ p = x := by
  unfold setInsert
  split
  · constructor
    · exact fun h => Or.inl h
    · rintro (h | rfl)
      · exact h
      · assumption
  · simp

theorem lcp_eq_right_iff_starts (a b : List Char) :
    lcp a b = b ↔ b <+: a := by
  induction a generalizing b with
  | nil =>
    cases b with
    | nil => simp [lcp]
    | cons y ys =>
      simp only [lcp]
      constructor
      · intro h; exact absurd h (by simp)
      · intro h
        have h' := List.eq_nil_of_prefix_nil h
        simp at h'
  | cons x xs ih =>
    cases b with
    | nil => simp [lcp]
    | cons y ys =>
      simp only [lcp]
      by_cases hxy : x = y
      · subst hxy
        simp [List.cons_prefix_cons, ih]
      · rw [if_neg hxy]
        constructor
        · intro h; exact absurd h (by simp)
        · intro h
          rw [List.cons_prefix_cons] at h
          exact absurd h.1.symm hxy

/-- `os.path.commonprefix([r, b]) == b` holds exactly when `b` is a literal
string prefix of `r`. -/
theorem commonPrefixOf_eq_iff (r b : String) :
    commonPrefixOf r b = b ↔ b.data <+: r.data := by
  unfold commonPrefixOf
  constructor
  · intro h
    have : (⟨lcp r.data b.data⟩ : String).data = b.data := by rw [h]
    exact (lcp_eq_right_iff_starts r.data b.data).mp this
  · intro h
    have := (lcp_eq_right_iff_starts r.data b.data).mpr h
    cases b with
    | mk d => simp only [String.data] at this; rw [this]

/-! ## Step-level lemmas -/

theorem admitRef_eq (fs : List String) (cwd base : String) (arts : List String)
    (r : String) :
    admitRef fs cwd base arts r =
      if commonPrefixOf (resolveRef cwd base r) base = base ∧ resolveRef cwd base r ∈ fs
      then setInsert arts (resolveRef cwd base r) else arts := by
  simp only [admitRef, resolveRef]
  by_cases h1 : commonPrefixOf (os_abspath cwd (os_normpath (os_path_join base r))) base = base
  · by_cases h2 : os_abspath cwd (os_normpath (os_path_join base r)) ∈ fs
    · simp [h1, h2]
    · simp [h1, h2]
  · simp [h1]

/-- Everything one accepted step does to the fields the claims are
about: the artifact set grows by the admitted candidates of the event,
the counts either stay put or are set by a totals stat to a
sum-consistent record, and the timing candidates are overwritten exactly
by a `status` element carrying `start`. -/
theorem step_main {fs : List String} {cwd base : String} {st : WalkSt}
    {e : XmlEvent} {st' : WalkSt} (h : step fs cwd base st e = .ok st') :
    st'.artifacts = (candOf e).foldl (admitRef fs cwd base) st.artifacts ∧
    ((st'.total_tests = st.total_tests ∧ st'.passed = st.passed ∧
      st'.failed = st.failed ∧ st'.skipped = st.skipped) ∨
     (isAllTestsStat e = true ∧
      st'.total_tests = st'.passed + st'.failed + st'.skipped)) ∧
    (match statusOf e with
     | some se => st'.startCand = some se.1 ∧ st'.elapsedCand = se.2
     | none => st'.startCand = st.startCand ∧ st'.elapsedCand = st.elapsedCand) := by
  cases e with
  | startTag t =>
    simp only [step] at h
    split_ifs at h <;>
      (injection h with h; subst h; exact ⟨rfl, Or.inl ⟨rfl, rfl, rfl, rfl⟩, rfl, rfl⟩)
  | endTag t attrs text =>
    simp only [step] at h
    split_ifs at h with h1 h2 h3 h4 h5
    · injection h with h; subst h
      refine ⟨?_, Or.inl ⟨rfl, rfl, rfl, rfl⟩, ?_⟩ <;>
        simp [candOf, statusOf, h1]
    · injection h with h; subst h
      refine ⟨?_, Or.inl ⟨rfl, rfl, rfl, rfl⟩, ?_⟩ <;>
        simp [candOf, statusOf, h2]
    · rcases hp : parseCount (lookupAttr "pass" attrs) with ep | p <;> rw [hp] at h
      · exact absurd h (by simp)
      · rcases hf : parseCount (lookupAttr "fail" attrs) with ef | f <;> rw [hf] at h
        · exact absurd h (by simp)
        · rcases hk : parseCount (lookupAttr "skip" attrs) with ek | k <;> rw [hk] at h
          · exact absurd h (by simp)
          · injection h with h; subst h
            refine ⟨?_, Or.inr ⟨?_, rfl⟩, ?_⟩ <;>
              simp [candOf, statusOf, isAllTestsStat, h3.1, h3.2.2.2]
    · cases hls : lookupAttr "start" attrs with
      | some s =>
        rw [hls] at h
        injection h with h; subst h
        refine ⟨?_, Or.inl ⟨rfl, rfl, rfl, rfl⟩, ?_⟩ <;>
          simp [candOf, statusOf, h4, hls]
      | none =>
        rw [hls] at h
        injection h with h; subst h
        refine ⟨?_, Or.inl ⟨rfl, rfl, rfl, rfl⟩, ?_⟩ <;>
          simp [candOf, statusOf, h4, hls]
    · injection h with h; subst h
      refine ⟨?_, Or.inl ⟨rfl, rfl, rfl, rfl⟩, ?_⟩
      · simp [candOf, if_pos h5, processMsg]
      · have ht : ¬ t = "status" := by
          rintro rfl; exact h4 rfl
        simp [statusOf, ht]
    · injection h with h; subst h
      refine ⟨?_, Or.inl ⟨rfl, rfl, rfl, rfl⟩, ?_⟩
      · simp [candOf, h5]
      · have ht : ¬ t = "status" := by
          rintro rfl; exact h4 rfl
        simp [statusOf, ht]

/-! ## Walk-level lemmas -/

theorem walk_artifacts {fs : List String} {cwd base : String} {evs : List XmlEvent}
    {st st' : WalkSt} (h : walkEvents fs cwd base evs st = .ok st') :
    st'.artifacts = (candidates evs).foldl (admitRef fs cwd base) st.artifacts := by
  induction evs generalizing st with
  | nil =>
    simp only [walkEvents] at h
    injection h with h; subst h
    simp [candidates]
  | cons e evs ih =>
    simp only [walkEvents] at h
    split at h
    · exact Except.noConfusion h
    · next st1 hs =>
      have ha := (step_main hs).1
      have hb := ih h
      rw [hb, ha]
      simp [candidates, List.foldl_append]

theorem walk_counts {fs : List String} {cwd base : String} {evs : List XmlEvent}
    {st st' : WalkSt} (h : walkEvents fs cwd base evs st = .ok st')
    (hinv : st.total_tests = st.passed + st.failed + st.skipped) :
    st'.total_tests = st'.passed + st'.failed + st'.skipped := by
  induction evs generalizing st with
  | nil =>
    simp only [walkEvents] at h
    injection h with h; subst h
    exact hinv
  | cons e evs ih =>
    simp only [walkEvents] at h
    split at h
    · exact Except.noConfusion h
    · next st1 hs =>
      rcases (step_main hs).2.1 with ⟨h1, h2, h3, h4⟩ | ⟨-, hsum⟩
      · exact ih h (by rw [h1, h2, h3, h4]; exact hinv)
      · exact ih h hsum

theorem walk_status {fs : List String} {cwd base : String} {evs : List XmlEvent}
    {st st' : WalkSt} (h : walkEvents fs cwd base evs st = .ok st') :
    (st'.startCand, st'.elapsedCand) =
      evs.foldl statusFold (st.startCand, st.elapsedCand) := by
  induction evs generalizing st with
  | nil =>
    simp only [walkEvents] at h
    injection h with h; subst h
    rfl
  | cons e evs ih =>
    simp only [walkEvents] at h
    split at h
    · exact Except.noConfusion h
    · next st1 hs =>
      have hstep := (step_main hs).2.2
      have h1 : (st1.startCand, st1.elapsedCand) =
          statusFold (st.startCand, st.elapsedCand) e := by
        unfold statusFold
        cases hso : statusOf e with
        | some se => rw [hso] at hstep; rw [hstep.1, hstep.2]
        | none => rw [hso] at hstep; rw [hstep.1, hstep.2]
      rw [List.foldl_cons, ← h1]
      exact ih h

theorem walk_nochange {fs : List String} {cwd base : String} {evs : List XmlEvent}
    {st st' : WalkSt} (h : walkEvents fs cwd base evs st = .ok st')
    (hm : ∀ e ∈ evs, isAllTestsStat e = false) :
    st'.total_tests = st.total_tests ∧ st'.passed = st.passed ∧
      st'.failed = st.failed ∧ st'.skipped = st.skipped := by
  induction evs generalizing st with
  | nil =>
    simp only [walkEvents] at h
    injection h with h; subst h
    exact ⟨rfl, rfl, rfl, rfl⟩
  | cons e evs ih =>
    simp only [walkEvents] at h
    split at h
    · exact Except.noConfusion h
    · next st1 hs =>
      rcases (step_main hs).2.1 with ⟨h1, h2, h3, h4⟩ | ⟨hstat, -⟩
      · have := ih h (fun e he => hm e (List.mem_cons_of_mem _ he))
        rw [this.1, this.2.1, this.2.2.1, this.2.2.2]
        exact ⟨h1, h2, h3, h4⟩
      · have := hm e (List.mem_cons_self e evs)
        rw [this] at hstat
        exact Bool.noConfusion hstat

/-- A left fold of `statusFold` is determined by `lastStatusStart`. -/
theorem foldl_statusFold_eq (evs : List XmlEvent) (p : Option String × String)
    (q : Option (String × String)) :
    evs.foldl statusFold
      (match q with | some se => (some se.1, se.2) | none => p) =
      (match evs.foldl (fun acc e =>
          match statusOf e with
          | some se => some se
          | none => acc) q with
       | some se => (some se.1, se.2)
       | none => p) := by
  induction evs generalizing q with
  | nil => rfl
  | cons e evs ih =>
    rw [List.foldl_cons, List.foldl_cons]
    have hstep : statusFold
        (match q with | some se => (some se.1, se.2) | none => p) e =
        (match (match statusOf e with
                | some se => some se
                | none => q) with
         | some se => (some se.1, se.2)
         | none => p) := by
      unfold statusFold
      cases statusOf e <;> rfl
    rw [hstep]
    exact ih _

/-! ## Finalization and parse elimination lemmas -/

theorem finalize_ok {st : WalkSt} {stats : RunStatistics}
    (h : finalize st = .ok stats) :
    stats.total_tests = st.total_tests ∧ stats.passed = st.passed ∧
    stats.failed = st.failed ∧ stats.skipped = st.skipped ∧
    stats.verdict = (if 0 < st.failed then "fail" else "pass") ∧
    (match st.startCand with
     | none => stats.start_time = none ∧ stats.end_time = none
     | some s => ∃ t d, parseIsoMicros s = some t ∧
         parseElapsedMicros st.elapsedCand = some d ∧
         stats.start_time = some t ∧ stats.end_time = some (t + (d : Int))) := by
  unfold finalize at h
  split at h
  · next hsc =>
    injection h with h; subst h
    exact ⟨rfl, rfl, rfl, rfl, rfl, rfl, rfl⟩
  · next s hsc =>
    split at h
    · next t d hti hd =>
      injection h with h; subst h
      exact ⟨rfl, rfl, rfl, rfl, rfl, t, d, hti, hd, rfl, rfl⟩
    · exact Except.noConfusion h

theorem parse_ok_elim {fs : List String} {cwd : String} {evs : List XmlEvent}
    {dir : String} {arts : List String} {stats : RunStatistics}
    (h : parse_output_xml fs cwd (.wellFormed evs) dir = .ok (arts, stats)) :
    ∃ st, walkEvents fs cwd (os_abspath cwd dir) evs initSt = .ok st ∧
      finalize st = .ok stats ∧ arts = st.artifacts := by
  simp only [parse_output_xml] at h
  split at h
  · exact Except.noConfusion h
  · next st hw =>
    split at h
    · exact Except.noConfusion h
    · next stats' hf =>
      injection h with h
      injection h with h1 h2
      subst h1; subst h2
      exact ⟨st, hw, hf, rfl⟩

/-- Membership characterization of the resolver fold: a path enters the
artifact set exactly when some candidate of the list resolves to it, the
resolved path passes the prefix check, and it is an existing file. -/
theorem mem_foldl_admitRef (fs : List String) (cwd base : String)
    (cands : List String) (init : List String) (p : String) :
    p ∈ cands.foldl (admitRef fs cwd base) init ↔
      p ∈ init ∨ ∃ r ∈ cands, resolveRef cwd base r = p ∧
        commonPrefixOf p base = base ∧ p ∈ fs := by
  induction cands generalizing init with
  | nil => simp
  | cons c cs ih =>
    rw [List.foldl_cons, ih, admitRef_eq]
    by_cases hc : commonPrefixOf (resolveRef cwd base c) base = base ∧
        resolveRef cwd base c ∈ fs
    · rw [if_pos hc]
      constructor
      · rintro (hi | hrest)
        · rcases mem_setInsert.mp hi with hi | rfl
          · exact Or.inl hi
          · exact Or.inr ⟨c, List.mem_cons_self c cs, rfl, hc.1, hc.2⟩
        · rcases hrest with ⟨r, hr, hres, hpre, hmem⟩
          exact Or.inr ⟨r, List.mem_cons_of_mem _ hr, hres, hpre, hmem⟩
      · rintro (hi | ⟨r, hr, hres, hpre, hmem⟩)
        · exact Or.inl (mem_setInsert.mpr (Or.inl hi))
        · rcases List.mem_cons.mp hr with rfl | hr
          · exact Or.inl (mem_setInsert.mpr (Or.inr hres.symm))
          · exact Or.inr ⟨r, hr, hres, hpre, hmem⟩
    · rw [if_neg hc]
      constructor
      · rintro (hi | ⟨r, hr, hres, hpre, hmem⟩)
        · exact Or.inl hi
        · exact Or.inr ⟨r, List.mem_cons_of_mem _ hr, hres, hpre, hmem⟩
      · rintro (hi | ⟨r, hr, hres, hpre, hmem⟩)
        · exact Or.inl hi
        · rcases List.mem_cons.mp hr with rfl | hr
          · exact absurd ⟨by rw [hres]; exact hpre, by rw [hres]; exact hmem⟩ hc
          · exact Or.inr ⟨r, hr, hres, hpre, hmem⟩

/-! ## Scanner, timing-fold, capitalize and enumerator helper lemmas -/

/-- The scanner pipeline, characterized over the raw tokens: it returns
exactly the values of attributes whose name lowercases to `src` or
`href`, on the start tags of the fragment in document order. -/
theorem msgFilePaths_eq (s : String) :
    msgFilePaths s = ((startTags s).map (fun t =>
      t.2.filterMap (fun a =>
        if pyLower a.1 = "src" ∨ pyLower a.1 = "href" then some a.2 else none))).flatten := by
  unfold msgFilePaths htmlParserStartTags
  rw [List.map_map]
  congr 1
  apply List.map_congr_left
  intro t ht
  show starttagPaths (lowerTag t).2 = _
  unfold starttagPaths lowerTag
  rw [List.filterMap_map]
  rfl

theorem foldl_statusFold (evs : List XmlEvent) (p : Option String × String) :
    evs.foldl statusFold p =
      (match lastStatusStart evs with
       | some se => (some se.1, se.2)
       | none => p) :=
  foldl_statusFold_eq evs p none

theorem foldl_statusFold_none (evs : List XmlEvent) (p : Option String × String)
    (h : ∀ e ∈ evs, statusOf e = none) :
    evs.foldl statusFold p = p := by
  induction evs generalizing p with
  | nil => rfl
  | cons e evs ih =>
    rw [List.foldl_cons]
    have h1 : statusFold p e = p := by
      unfold statusFold
      rw [h e (List.mem_cons_self e evs)]
    rw [h1]
    exact ih p (fun x hx => h x (List.mem_cons_of_mem _ hx))

/-- Handling a `msg` element never fails: rejection by the sandboxer is
silent exclusion, not an error. -/
theorem step_msg_ok (fs : List String) (cwd base : String) (st : WalkSt)
    (attrs : List (String × String)) (text : String) :
    ∃ st', step fs cwd base st (.endTag "msg" attrs text) = .ok st' := by
  simp only [step]
  split_ifs with h1 h2 h3 h4 h5
  · exact ⟨_, rfl⟩
  · exact ⟨_, rfl⟩
  · exact absurd h3.1 (by decide)
  · exact absurd h4 (by decide)
  · exact ⟨_, rfl⟩
  · exact ⟨_, rfl⟩

theorem outputPart_disabled {fs : List String} {cwd : String} {doc : DocInput}
    {dir output : String}
    (h : pyUpper output = "NONE" ∨ os_path_join dir output ∉ fs) :
    outputPart fs cwd doc dir output = .ok [] := by
  unfold outputPart
  rcases h with h | h
  · rw [if_neg (by simp [h])]
  · split_ifs with h1 <;> rfl

theorem wellKnownPart_disabled {fs : List String} {dir name : String}
    (h : pyUpper name = "NONE" ∨ os_path_join dir name ∉ fs) :
    wellKnownPart fs dir name = [] := by
  unfold wellKnownPart
  rw [if_neg]
  rintro ⟨h1, h2⟩
  rcases h with h | h
  · exact h1 h
  · exact h h2

theorem pyCapitalizeData_length (l : List Char) :
    (pyCapitalizeData l).length = l.length := by
  cases l <;> simp [pyCapitalizeData]

theorem pyCapitalizeData_take (n : Nat) (l : List Char) :
    pyCapitalizeData (l.take n) = (pyCapitalizeData l).take n := by
  cases l with
  | nil => simp [pyCapitalizeData]
  | cons c cs =>
    cases n with
    | zero => simp [pyCapitalizeData]
    | succ m => simp [pyCapitalizeData, List.map_take]

/-! ## Claim theorems -/

/-- C1: for every base directory and every candidate reference yielded by
the scanner, `parse_output_xml` admits a path into the artifact set iff
some candidate resolves to it, the canonical base directory path is a
literal string prefix of the resolved canonical path, and the path names
an existing regular file — so candidates resolving outside the base
directory or to non-existent files are excluded; and handling a `msg`
element (hence rejecting its candidates) never raises an error. -/
theorem c1_sandbox_admission (fs : List String) (cwd dir : String)
    (evs : List XmlEvent) (arts : List String) (stats : RunStatistics) (p : String)
    (h : parse_output_xml fs cwd (.wellFormed evs) dir = .ok (arts, stats)) :
    (p ∈ arts ↔ ∃ r ∈ candidates evs,
      resolveRef cwd (os_abspath cwd dir) r = p ∧
      (os_abspath cwd dir).data <+: p.data ∧ p ∈ fs) ∧
    (∀ st attrs text, ∃ st',
      step fs cwd (os_abspath cwd dir) st (.endTag "msg" attrs text) = .ok st') := by
  refine ⟨?_, fun st attrs text => step_msg_ok fs cwd _ st attrs text⟩
  obtain ⟨st, hw, hf, rfl⟩ := parse_ok_elim h
  rw [walk_artifacts hw, mem_foldl_admitRef]
  constructor
  · rintro (hfalse | ⟨r, hr, hres, hpre, hmem⟩)
    · exact absurd hfalse (by simp [initSt])
    · exact ⟨r, hr, hres, (commonPrefixOf_eq_iff _ _).mp hpre, hmem⟩
  · rintro ⟨r, hr, hres, hpre, hmem⟩
    exact Or.inr ⟨r, hr, hres, (commonPrefixOf_eq_iff _ _).mpr hpre, hmem⟩

/-- C2: for every accepted results document, the returned statistics
record satisfies `total_tests = passed + failed + skipped`, its verdict
is `"fail"` iff `failed > 0` and `"pass"` otherwise, and it is the
all-defaults record when the document has no matching elements. -/
theorem c2_statistics_record (fs : List String) (cwd dir : String)
    (evs : List XmlEvent) (arts : List String) (stats : RunStatistics)
    (h : parse_output_xml fs cwd (.wellFormed evs) dir = .ok (arts, stats)) :
    stats.total_tests = stats.passed + stats.failed + stats.skipped ∧
    (stats.verdict = "fail" ↔ 0 < stats.failed) ∧
    (stats.failed = 0 → stats.verdict = "pass") ∧
    ((∀ e ∈ evs, isAllTestsStat e = false ∧ statusOf e = none) →
      stats = defaultStats) := by
  obtain ⟨st, hw, hf, hart⟩ := parse_ok_elim h
  obtain ⟨h1, h2, h3, h4, h5, h6⟩ := finalize_ok hf
  refine ⟨?_, ?_, ?_, ?_⟩
  · rw [h1, h2, h3, h4]
    exact walk_counts hw rfl
  · rw [h5, h3]
    by_cases h0 : 0 < st.failed
    · rw [if_pos h0]
      exact ⟨fun _ => h0, fun _ => rfl⟩
    · rw [if_neg h0]
      constructor
      · intro hpf; exact absurd hpf (by decide)
      · intro hlt; exact absurd hlt h0
  · intro hz
    rw [h3] at hz
    rw [h5, if_neg (by omega)]
  · intro hnm
    have hcounts := walk_nochange hw (fun e he => (hnm e he).1)
    have hstat := walk_status hw
    rw [foldl_statusFold_none evs _ (fun e he => (hnm e he).2)] at hstat
    have hsc : st.startCand = none := congrArg Prod.fst hstat
    rw [hsc] at h6
    have hT : stats.total_tests = 0 := by rw [h1, hcounts.1]; rfl
    have hP : stats.passed = 0 := by rw [h2, hcounts.2.1]; rfl
    have hF : stats.failed = 0 := by rw [h3, hcounts.2.2.1]; rfl
    have hS : stats.skipped = 0 := by rw [h4, hcounts.2.2.2]; rfl
    have hV : stats.verdict = "pass" := by
      rw [h5, hcounts.2.2.1, if_neg (by decide)]
    rw [show stats = ⟨stats.total_tests, stats.passed, stats.failed,
          stats.skipped, stats.verdict, stats.start_time, stats.end_time⟩ from rfl,
        hT, hP, hF, hS, hV, h6.1, h6.2]
    rfl

/-- C3: for every accepted results document whose last `status` element
carrying a `start` attribute has attributes `(s, el)`, the returned
start time is the parse of `s`, the end time is start plus the parse of
`el`, their difference equals the elapsed value, and end >= start. -/
theorem c3_timing_last_status (fs : List String) (cwd dir : String)
    (evs : List XmlEvent) (arts : List String) (stats : RunStatistics)
    (s el : String)
    (h : parse_output_xml fs cwd (.wellFormed evs) dir = .ok (arts, stats))
    (hlast : lastStatusStart evs = some (s, el)) :
    ∃ t d, parseIsoMicros s = some t ∧ parseElapsedMicros el = some d ∧
      stats.start_time = some t ∧ stats.end_time = some (t + (d : Int)) ∧
      (t + (d : Int)) - t = (d : Int) ∧ t ≤ t + (d : Int) := by
  obtain ⟨st, hw, hf, -⟩ := parse_ok_elim h
  obtain ⟨-, -, -, -, -, h6⟩ := finalize_ok hf
  have hstat := walk_status hw
  rw [foldl_statusFold, hlast] at hstat
  have hsc : st.startCand = some s := congrArg Prod.fst hstat
  have hel : st.elapsedCand = el := congrArg Prod.snd hstat
  rw [hsc, hel] at h6
  obtain ⟨t, d, hti, hd, hstart, hend⟩ := h6
  exact ⟨t, d, hti, hd, hstart, hend, by omega, by omega⟩

/-- C4 counterexample: the scanner does not match exactly on the
attribute names `src`/`href` as written — an attribute written `SRC` is
also collected, because the tokenizer lowercases attribute names. -/
theorem c4_counterexample :
    msgFilePaths "<img SRC=\"x\">" ≠ exactMatchScan "<img SRC=\"x\">" := by
  have h1 : msgFilePaths "<img SRC=\"x\">" = ["x"] := rfl
  have h2 : exactMatchScan "<img SRC=\"x\">" = [] := rfl
  rw [h1, h2]
  simp

/-- C4 (amended): for every HTML fragment, the scanner returns exactly
the sequence of values of attributes whose name lowercases to `src` or
`href`, on any start tag, in document order, tolerating malformed
markup without error (the scanner is a total pure function). -/
theorem c4_scanner_sequence (s : String) :
    msgFilePaths s = ((startTags s).map (fun t =>
      t.2.filterMap (fun a =>
        if pyLower a.1 = "src" ∨ pyLower a.1 = "href" then some a.2 else none))).flatten :=
  msgFilePaths_eq s

/-- C5: with all three well-known files enabled and present, the
manifest is: primary results file first, then every discovered
artifact, then the primary log file, then the primary report file. -/
theorem c5_manifest_order (fs : List String) (cwd : String) (doc : DocInput)
    (dir output log report : String) (arts : List String) (stats : RunStatistics)
    (ho : pyUpper output ≠ "NONE") (hoe : os_path_join dir output ∈ fs)
    (hp : parse_output_xml fs cwd doc dir = .ok (arts, stats))
    (hl : pyUpper log ≠ "NONE") (hle : os_path_join dir log ∈ fs)
    (hr : pyUpper report ≠ "NONE") (hre : os_path_join dir report ∈ fs) :
    find_robot_files fs cwd doc dir output log report =
      .ok (os_path_join dir output :: arts ++
        [os_path_join dir log, os_path_join dir report]) := by
  unfold find_robot_files outputPart wellKnownPart
  rw [if_pos ho, if_pos hoe, hp, if_pos ⟨hl, hle⟩, if_pos ⟨hr, hre⟩]
  simp

/-- C6: a configured filename equal to the disable sentinel
case-insensitively, or not existing at the base directory, is skipped
exactly as if it were disabled — without error — and when all three
well-known files are disabled or absent the enumerator returns the
empty manifest, not an error. -/
theorem c6_skip_and_empty (fs : List String) (cwd : String) (doc : DocInput)
    (dir output log report : String) :
    ((pyUpper output = "NONE" ∨ os_path_join dir output ∉ fs) →
      find_robot_files fs cwd doc dir output log report =
        find_robot_files fs cwd doc dir "NONE" log report) ∧
    ((pyUpper log = "NONE" ∨ os_path_join dir log ∉ fs) →
      find_robot_files fs cwd doc dir output log report =
        find_robot_files fs cwd doc dir output "NONE" report) ∧
    ((pyUpper report = "NONE" ∨ os_path_join dir report ∉ fs) →
      find_robot_files fs cwd doc dir output log report =
        find_robot_files fs cwd doc dir output log "NONE") ∧
    ((pyUpper output = "NONE" ∨ os_path_join dir output ∉ fs) →
     (pyUpper log = "NONE" ∨ os_path_join dir log ∉ fs) →
     (pyUpper report = "NONE" ∨ os_path_join dir report ∉ fs) →
      find_robot_files fs cwd doc dir output log report = .ok []) := by
  refine ⟨?_, ?_, ?_, ?_⟩
  · intro h
    unfold find_robot_files
    rw [outputPart_disabled h,
        @outputPart_disabled fs cwd doc dir "NONE" (Or.inl (by decide))]
  · intro h
    unfold find_robot_files
    rw [wellKnownPart_disabled h,
        @wellKnownPart_disabled fs dir "NONE" (Or.inl (by decide))]
  · intro h
    unfold find_robot_files
    rw [wellKnownPart_disabled h,
        @wellKnownPart_disabled fs dir "NONE" (Or.inl (by decide))]
  · intro h1 h2 h3
    unfold find_robot_files
    rw [outputPart_disabled h1, wellKnownPart_disabled h2, wellKnownPart_disabled h3]
    rfl

/-- C7: a results document that cannot be opened or is not well-formed
XML is a fatal error for `parse_output_xml`: no result is returned, and
the error propagates through `find_robot_files` to the caller. -/
theorem c7_malformed_fatal (fs : List String) (cwd base dir output log report : String)
    (ho : pyUpper output ≠ "NONE") (hoe : os_path_join dir output ∈ fs) :
    parse_output_xml fs cwd .malformed base = .error .malformed ∧
    (∀ res, parse_output_xml fs cwd .malformed base ≠ .ok res) ∧
    find_robot_files fs cwd .malformed dir output log report = .error .malformed := by
  refine ⟨rfl, fun res hres => Except.noConfusion hres, ?_⟩
  unfold find_robot_files outputPart
  rw [if_pos ho, if_pos hoe]
  rfl

/-- C8 counterexample: the upload label is not "basename minus final
five characters, first letter capitalized, the rest preserved exactly"
— Python's `str.capitalize()` lowercases the remaining characters. -/
theorem c8_counterexample :
    htmlLabel "myLog.html" ≠ specClaimLabel "myLog.html" := by
  have h1 : htmlLabel "myLog.html" = "Mylog" := rfl
  have h2 : specClaimLabel "myLog.html" = "MyLog" := rfl
  rw [h1, h2]
  simp

/-- C8 (amended): for every manifest entry name, the upload label equals
the entry's basename with its final five characters removed, its first
character uppercased, and every remaining character lowercased
(Python `str.capitalize()` applied before the slice commutes with it). -/
theorem c8_label_rule (file_name : String) :
    htmlLabel file_name =
      pyCapitalize (pySliceDropLast 5 (os_basename file_name)) := by
  unfold htmlLabel pyCapitalize pySliceDropLast
  congr 1
  rw [pyCapitalizeData_take, pyCapitalizeData_length]

/-- C9: the scanner collects the value of an attribute whose name in any
letter case lowercases to `src` or `href`, because the tokenizer
lowercases attribute names before the membership test. -/
theorem c9_lowercased_names (s v n tag : String) (attrs : List (String × String))
    (hmem : (tag, attrs) ∈ startTags s) (hattr : (n, v) ∈ attrs)
    (hname : pyLower n = "src" ∨ pyLower n = "href") :
    v ∈ msgFilePaths s := by
  rw [msgFilePaths_eq, List.mem_flatten]
  refine ⟨attrs.filterMap (fun a =>
    if pyLower a.1 = "src" ∨ pyLower a.1 = "href" then some a.2 else none), ?_, ?_⟩
  · exact List.mem_map_of_mem _ hmem
  · rw [List.mem_filterMap]
    exact ⟨(n, v), hattr, by rw [if_pos hname]⟩

/-- C10: the enumerator never deduplicates across its three manifest
categories: when the results document references the primary log file
itself, the manifest contains that file twice — once as a discovered
artifact and once as the primary log entry. -/
theorem c10_no_dedup :
    find_robot_files ["/base/output.xml", "/base/log.html"] "/"
        (.wellFormed [.endTag "msg" [("html", "true")] "<a href=\"log.html\">Log</a>"])
        "/base" "output.xml" "log.html" "report.html" =
      .ok ["/base/output.xml", "/base/log.html", "/base/log.html"] ∧
    List.count "/base/log.html"
      ["/base/output.xml", "/base/log.html", "/base/log.html"] = 2 :=
  ⟨rfl, by decide⟩

/-! ## Witnesses: the claim theorems applied at concrete inputs -/

/-- Witness for C1: a concrete document whose HTML message references an
in-base file, a traversal attempt (`../../etc/passwd`) and a missing
file; the traversal target is absent from the artifact set. -/
theorem c1_sandbox_admission_witness :
    ("/etc/passwd" ∈ (["/base/a.png"] : List String) ↔
      ∃ r ∈ candidates [XmlEvent.endTag "msg" [("html", "true")]
          "<img src=\"a.png\"><img src=\"../../etc/passwd\"><img src=\"missing.png\">"],
        resolveRef "/" (os_abspath "/" "/base") r = "/etc/passwd" ∧
        (os_abspath "/" "/base").data <+: "/etc/passwd".data ∧
        "/etc/passwd" ∈ ["/base/a.png", "/etc/passwd"]) :=
  (c1_sandbox_admission ["/base/a.png", "/etc/passwd"] "/" "/base"
    [XmlEvent.endTag "msg" [("html", "true")]
      "<img src=\"a.png\"><img src=\"../../etc/passwd\"><img src=\"missing.png\">"]
    ["/base/a.png"] defaultStats "/etc/passwd" rfl).1

/-- Witness for C2: the document of the spec's §8 scenario statistics
(`pass="1" fail="3" skip="0"`). -/
theorem c2_statistics_record_witness :
    (4 : Nat) = 1 + 3 + 0 ∧ (("fail" : String) = "fail" ↔ (0 : Nat) < 3) ∧
    ((3 : Nat) = 0 → ("fail" : String) = "pass") :=
  let h := c2_statistics_record [] "/" "."
    [XmlEvent.startTag "statistics", XmlEvent.startTag "total",
     XmlEvent.endTag "stat" [("pass", "1"), ("fail", "3"), ("skip", "0")] "All Tests",
     XmlEvent.endTag "total" [] "", XmlEvent.endTag "statistics" [] ""]
    [] ⟨4, 1, 3, 0, "fail", none, none⟩ rfl
  ⟨h.1, h.2.1, h.2.2.1⟩

/-- Witness for C3: the spec's §8 timing scenario
(`start="2024-10-11T22:26:20.295908" elapsed="0.041915"`). -/
theorem c3_timing_last_status_witness :
    ∃ t d, parseIsoMicros "2024-10-11T22:26:20.295908" = some t ∧
      parseElapsedMicros "0.041915" = some d ∧
      (some 1728685580295908 : Option Int) = some t ∧
      (some 1728685580337823 : Option Int) = some (t + (d : Int)) ∧
      (t + (d : Int)) - t = (d : Int) ∧ t ≤ t + (d : Int) :=
  c3_timing_last_status [] "/" "."
    [XmlEvent.endTag "status"
      [("status", "FAIL"), ("start", "2024-10-11T22:26:20.295908"),
       ("elapsed", "0.041915")] ""]
    [] ⟨0, 0, 0, 0, "pass", some 1728685580295908, some 1728685580337823⟩
    "2024-10-11T22:26:20.295908" "0.041915" rfl rfl

/-- Witness for C5: all three well-known files present and enabled. -/
theorem c5_manifest_order_witness :
    find_robot_files ["/b/output.xml", "/b/log.html", "/b/report.html"] "/"
        (.wellFormed []) "/b" "output.xml" "log.html" "report.html" =
      .ok ["/b/output.xml", "/b/log.html", "/b/report.html"] :=
  c5_manifest_order ["/b/output.xml", "/b/log.html", "/b/report.html"] "/"
    (.wellFormed []) "/b" "output.xml" "log.html" "report.html" [] defaultStats
    (by decide) (by decide) rfl (by decide) (by decide) (by decide) (by decide)

/-- Witness for C6: output and report absent, log disabled via the
lowercase sentinel `none` — empty manifest, no error. -/
theorem c6_skip_and_empty_witness :
    find_robot_files ["/b/log.html"] "/" (.wellFormed []) "/b"
      "output.xml" "none" "report.html" = .ok [] :=
  (c6_skip_and_empty ["/b/log.html"] "/" (.wellFormed []) "/b"
      "output.xml" "none" "report.html").2.2.2
    (Or.inr (by decide)) (Or.inl (by decide)) (Or.inr (by decide))

/-- Witness for C7: a present, enabled results file that is malformed
aborts enumeration with `DocumentError`. -/
theorem c7_malformed_fatal_witness :
    find_robot_files ["/b/output.xml"] "/" .malformed "/b"
      "output.xml" "log.html" "report.html" = .error .malformed :=
  (c7_malformed_fatal ["/b/output.xml"] "/" "/b" "/b"
    "output.xml" "log.html" "report.html" (by decide) (by decide)).2.2

/-- Witness for C9: an uppercase `HREF` attribute is collected. -/
theorem c9_lowercased_names_witness :
    "y" ∈ msgFilePaths "<a HREF=\"y\">" :=
  c9_lowercased_names "<a HREF=\"y\">" "y" "HREF" "a" [("HREF", "y")]
    (by rw [show startTags "<a HREF=\"y\">" = [("a", [("HREF", "y")])] from rfl]
        exact List.mem_singleton_self _)
    (List.mem_singleton_self _) (Or.inr (by decide))

end RFLogs
